import Mathlib

/-!
Shallow embedding of the core of the `kalshi-arbitrage-bot` repository,
with theorems checking the natural-language specification against the code.

Conventions of the embedding:
* Python integers become `Int` (they are unbounded and signed).
* Python `float` and `Decimal` arithmetic becomes exact rational arithmetic
  (`ℚ`); all concrete values appearing in the claims are small decimal
  numbers that floats and `Decimal` represent exactly.
* Python dictionaries become association lists (`List (key × value)`) with
  first-match lookup and in-place update, mirroring insertion-order
  semantics.
* Fallible operations return `Option`.
* Logging, UUIDs, wall-clock timestamps, locks and `async` scheduling are
  not modelled: every method relevant to the claims is sequential and
  deterministic once those are erased.
-/

namespace Kalshi

/-! ## Data model (src/data/models.py) -/

/-- `OrderSide` from src/data/models.py: YES or NO. -/
inductive OrderSide
| yes
| no
deriving DecidableEq, Repr

/-- `OrderAction` from src/data/models.py: buy or sell. -/
inductive OrderAction
| buy
| sell
deriving DecidableEq, Repr

/-- `OrderbookLevel` from src/data/models.py: one price level. -/
structure OrderbookLevel where
  price : Int
  quantity : Int
deriving DecidableEq, Repr

/-- `Orderbook` from src/data/models.py: the venue publishes only bid
ladders on both sides (the `ticker` and `timestamp` fields play no role in
the claims and are omitted). -/
structure Orderbook where
  yes_bids : List OrderbookLevel
  no_bids : List OrderbookLevel
deriving DecidableEq, Repr

/-- Python `max(level.price for level in bids)` guarded by a non-emptiness
check: `none` exactly when the ladder is empty. -/
def bestBidPrice (bids : List OrderbookLevel) : Option Int :=
  (bids.map (fun l => l.price)).max?

/-- `Orderbook.best_yes_bid`. -/
def Orderbook.best_yes_bid (ob : Orderbook) : Option Int :=
  bestBidPrice ob.yes_bids

/-- `Orderbook.best_no_bid`. -/
def Orderbook.best_no_bid (ob : Orderbook) : Option Int :=
  bestBidPrice ob.no_bids

/-- `Orderbook.best_yes_ask`: implied from NO bids as `100 - best_no_bid`. -/
def Orderbook.best_yes_ask (ob : Orderbook) : Option Int :=
  match ob.best_no_bid with
  | none => none
  | some b => some (100 - b)

/-- `Orderbook.best_no_ask`: implied from YES bids as `100 - best_yes_bid`. -/
def Orderbook.best_no_ask (ob : Orderbook) : Option Int :=
  match ob.best_yes_bid with
  | none => none
  | some b => some (100 - b)

/-- `Orderbook.yes_ask_quantity`: quantity aggregated at the best NO-bid
price level (0 when the NO ladder is empty). -/
def Orderbook.yes_ask_quantity (ob : Orderbook) : Int :=
  match ob.best_no_bid with
  | none => 0
  | some bp => ((ob.no_bids.filter (fun l => l.price = bp)).map (fun l => l.quantity)).sum

/-- `Orderbook.get_acquisition_cost` (src/data/models.py lines 124-139).
The source returns `ask_price * quantity if ask_price else None`; the
Python truthiness test on `ask_price` is the `= 0` test below.  Note that
the source performs no liquidity check, although its docstring promises
`None` when there is not enough liquidity. -/
def Orderbook.get_acquisition_cost (ob : Orderbook) (side : OrderSide)
    (quantity : Int) : Option Int :=
  match side with
  | .yes =>
    match ob.best_yes_ask with
    | none => none
    | some p => if p = 0 then none else some (p * quantity)
  | .no =>
    match ob.best_no_ask with
    | none => none
    | some p => if p = 0 then none else some (p * quantity)

/-- `OrderbookManager.get_acquisition_costs`
(src/data/orderbook_manager.py lines 159-185): per-ticker acquisition cost,
`none` when the book is missing.  The manager's book dictionary is an
association list. -/
def get_acquisition_costs (orderbooks : List (String × Orderbook))
    (tickers : List String) (side : OrderSide) (quantity : Int) :
    List (String × Option Int) :=
  tickers.map (fun t =>
    (t, match orderbooks.lookup t with
        | some ob => ob.get_acquisition_cost side quantity
        | none => none))

/-- `ArbitrageLeg` from src/data/models.py. -/
structure ArbitrageLeg where
  ticker : String
  side : OrderSide
  action : OrderAction
  price : Int
  quantity : Int
deriving DecidableEq, Repr

/-- `ArbitrageOpportunity` from src/data/models.py (the `id`, `type` and
`detected_at` fields, which are a UUID, a tag and a wall-clock time, play
no role in the claims and are omitted; `confidence` is a float, embedded
as an exact rational). -/
structure ArbitrageOpportunity where
  event_ticker : String
  legs : List ArbitrageLeg
  total_cost_cents : Int
  guaranteed_return_cents : Int
  gross_profit_cents : Int
  estimated_fees_cents : Int
  net_profit_cents : Int
  max_quantity : Int
  confidence : ℚ
deriving DecidableEq, Repr

/-- `ArbitrageOpportunity.is_profitable`: `net_profit_cents > 0`. -/
def ArbitrageOpportunity.is_profitable (o : ArbitrageOpportunity) : Bool :=
  0 < o.net_profit_cents

/-- `Position` from src/data/models.py (fields used by the exposure
manager). -/
structure Position where
  market_exposure : Int
  position : Int
deriving DecidableEq, Repr

/-- `Position.contracts`: absolute number of contracts. -/
def Position.contracts (p : Position) : Int := |p.position|

/-! ## Circuit breaker (src/risk/circuit_breaker.py) -/

/-- `CircuitBreakerState`.  The source names are CLOSED, OPEN, HALF_OPEN;
`open` is a Lean keyword, so the OPEN state is called `opened` here. -/
inductive CircuitBreakerState
| closed
| opened
| halfOpen
deriving DecidableEq, Repr

/-- The trip reason produced by `_check_trip_conditions`; the source
builds a reason string for each of the three branches. -/
inductive TripReason
| dailyLoss
| consecutiveLosses
| exposureLimit
deriving DecidableEq, Repr

/-- `CircuitBreakerMetrics` (the wall-clock fields `last_loss_time` and
`last_trip_time` are not modelled). -/
structure CircuitBreakerMetrics where
  daily_loss_cents : Int
  consecutive_losses : Int
  total_exposure_cents : Int
  trip_count : Int
deriving DecidableEq, Repr

/-- `CircuitBreakerConfig`. -/
structure CircuitBreakerConfig where
  max_daily_loss_cents : Int
  max_consecutive_losses : Int
  max_exposure_cents : Int
  cooldown_seconds : Int
  half_open_test_limit : Int
deriving DecidableEq, Repr

/-- The defaults of `CircuitBreakerConfig`. -/
def defaultCBConfig : CircuitBreakerConfig :=
  { max_daily_loss_cents := 10000
    max_consecutive_losses := 5
    max_exposure_cents := 50000
    cooldown_seconds := 300
    half_open_test_limit := 1 }

/-- The mutable state of a `CircuitBreaker` (trip time is wall-clock and
not modelled; the trip reason is delivered in `RecordOutcome`). -/
structure CircuitBreaker where
  state : CircuitBreakerState
  metrics : CircuitBreakerMetrics
  half_open_trades : Int
deriving DecidableEq, Repr

/-- Result of `record_trade_result`: the updated breaker plus which
callbacks fired (`on_trip` with its reason, and `on_reset`). -/
structure RecordOutcome where
  breaker : CircuitBreaker
  tripped : Option TripReason
  reset_fired : Bool
deriving DecidableEq, Repr

/-- The reason selection of `_check_trip_conditions` (lines 183-192):
daily loss first, then consecutive losses, then exposure, each compared
with `>=`. -/
def trip_condition (cfg : CircuitBreakerConfig) (m : CircuitBreakerMetrics) :
    Option TripReason :=
  if cfg.max_daily_loss_cents ≤ m.daily_loss_cents then some .dailyLoss
  else if cfg.max_consecutive_losses ≤ m.consecutive_losses then some .consecutiveLosses
  else if cfg.max_exposure_cents ≤ m.total_exposure_cents then some .exposureLimit
  else none

/-- `CircuitBreaker._trip`: state becomes OPEN and `trip_count` is
incremented (the `on_trip` callback is reported by the caller). -/
def do_trip (cb : CircuitBreaker) : CircuitBreaker :=
  { cb with
    state := .opened
    metrics := { cb.metrics with trip_count := cb.metrics.trip_count + 1 } }

/-- `CircuitBreaker._check_trip_conditions` (lines 178-195): a no-op when
already OPEN, otherwise trips when a condition holds. -/
def check_trip_conditions (cfg : CircuitBreakerConfig) (cb : CircuitBreaker) :
    CircuitBreaker × Option TripReason :=
  if cb.state = .opened then (cb, none)
  else
    match trip_condition cfg cb.metrics with
    | none => (cb, none)
    | some r => (do_trip cb, some r)

/-- `CircuitBreaker._transition_to_closed` (the `on_reset` callback is
reported by the caller). -/
def transition_to_closed (cb : CircuitBreaker) : CircuitBreaker :=
  { cb with state := .closed, half_open_trades := 0 }

/-- `CircuitBreaker.record_trade_result` (lines 138-166).  A negative
profit adds `|profit|` to the daily loss, increments consecutive losses
and checks the trip conditions; otherwise consecutive losses are zeroed
and, when the breaker is HALF_OPEN, it transitions to CLOSED and the
reset callback fires. -/
def record_trade_result (cfg : CircuitBreakerConfig) (cb : CircuitBreaker)
    (profit_cents exposure_cents : Int) : RecordOutcome :=
  let m0 := { cb.metrics with total_exposure_cents := exposure_cents }
  if profit_cents < 0 then
    let m1 := { m0 with
      daily_loss_cents := m0.daily_loss_cents + |profit_cents|
      consecutive_losses := m0.consecutive_losses + 1 }
    let res := check_trip_conditions cfg { cb with metrics := m1 }
    { breaker := res.1, tripped := res.2, reset_fired := false }
  else
    let cb1 := { cb with metrics := { m0 with consecutive_losses := 0 } }
    if cb1.state = .halfOpen then
      { breaker := transition_to_closed cb1, tripped := none, reset_fired := true }
    else
      { breaker := cb1, tripped := none, reset_fired := false }

/-! ## Profit calculator (src/arbitrage/calculator.py) -/

/-- `Decimal.quantize(Decimal 1, rounding=ROUND_UP)`: rounding away from
zero to an integer. -/
def roundUpQ (x : ℚ) : Int :=
  if 0 ≤ x then ⌈x⌉ else ⌊x⌋

/-- `ProfitCalculator.FEE_RATE = Decimal "0.007"` (0.7 percent). -/
def defaultFeeRate : ℚ := 7 / 1000

/-- The fee the calculator charges for one BUY leg:
`ceil(fee_rate * (100 - price) * quantity)` in the source's
`Decimal` arithmetic. -/
def legBuyFee (fee_rate : ℚ) (leg : ArbitrageLeg) : Int :=
  roundUpQ (((100 : ℚ) - (leg.price : ℚ)) * fee_rate * (leg.quantity : ℚ))

/-- `ProfitCalculator.calculate_total_fees` (lines 77-102): the running
maximum, over BUY legs only, of the per-leg fee, starting from 0. -/
def calculate_total_fees (fee_rate : ℚ) (legs : List ArbitrageLeg) : Int :=
  legs.foldl (fun m leg => if leg.action = .buy then max m (legBuyFee fee_rate leg) else m) 0

/-- The per-BUY-leg fees as a list, in leg order (SELL legs dropped);
used to state what "the maximum over BUY legs" means. -/
def buyLegFees (fee_rate : ℚ) (legs : List ArbitrageLeg) : List Int :=
  (legs.filter (fun l => l.action = .buy)).map (legBuyFee fee_rate)

/-! ## Detector ranking (src/arbitrage/detector.py) -/

/-- The composite score of `ArbitrageDetector.get_best_opportunity`
(lines 245-250): `net_profit_cents * 100 + confidence * 10 + max_quantity`
computed in Python floats, embedded as exact rationals. -/
def score (opp : ArbitrageOpportunity) : ℚ :=
  (opp.net_profit_cents : ℚ) * 100 + opp.confidence * 10 + (opp.max_quantity : ℚ)

/-- `ArbitrageDetector.get_best_opportunity` (lines 219-252): filter to
profitable candidates, then Python `max(profitable, key=score)`, which
keeps the earliest candidate on ties and replaces only on a strictly
greater score. -/
def get_best_opportunity (opportunities : List ArbitrageOpportunity) :
    Option ArbitrageOpportunity :=
  match opportunities.filter (fun o => o.is_profitable) with
  | [] => none
  | h :: t => some (t.foldl (fun best o => if score best < score o then o else best) h)

/-! ## Exposure manager (src/risk/exposure_manager.py) -/

/-- `ExposureLimits` (the `max_concurrent_trades` field is unused by
`check_trade` and omitted). -/
structure ExposureLimits where
  max_total_exposure_cents : Int
  max_position_per_market : Int
  max_exposure_per_market_cents : Int
deriving DecidableEq, Repr

/-- Which limit produced a denial; the source encodes this in the
`reason` string of `ExposureCheck` (the per-market reasons carry the
ticker of the offending leg). -/
inductive DenialKind
| totalExposure
| positionLimit (ticker : String)
| marketExposure (ticker : String)
deriving DecidableEq, Repr

/-- `ExposureCheck`, the result record of `check_trade` (`reason` is
modelled structurally by `denial`). -/
structure ExposureCheck where
  allowed : Bool
  denial : Option DenialKind
  max_allowed_quantity : Int
  current_exposure_cents : Int
  limit_exposure_cents : Int
deriving DecidableEq, Repr

/-- `ExposureManager._calculate_max_quantity` (lines 135-145):
`max(0, (limit - current) // per_unit_cost)`, with Python floor
division, and 0 for a non-positive per-unit cost. -/
def calculate_max_quantity (current per_unit_cost limit : Int) : Int :=
  if per_unit_cost ≤ 0 then 0
  else max 0 (Int.fdiv (limit - current) per_unit_cost)

/-- `position.contracts if position else 0` on the tracker's position
dictionary. -/
def contractsOf (positions : List (String × Position)) (ticker : String) : Int :=
  match positions.lookup ticker with
  | some p => p.contracts
  | none => 0

/-- `position.market_exposure if position else 0` on the tracker's
position dictionary. -/
def marketExposureOf (positions : List (String × Position)) (ticker : String) : Int :=
  match positions.lookup ticker with
  | some p => p.market_exposure
  | none => 0

/-- `PositionTracker.get_total_exposure`
(src/execution/position_tracker.py line 269): the sum of
`market_exposure` over all positions. -/
def total_exposure (positions : List (String × Position)) : Int :=
  (positions.map (fun p => p.2.market_exposure)).sum

/-- The per-leg loop of `ExposureManager.check_trade` (lines 97-125):
returns the first denial, or `none` when every leg passes both
per-market checks. -/
def check_legs (limits : ExposureLimits) (positions : List (String × Position))
    (current_total quantity : Int) : List ArbitrageLeg → Option ExposureCheck
  | [] => none
  | leg :: rest =>
    if limits.max_position_per_market < contractsOf positions leg.ticker + quantity then
      some { allowed := false
             denial := some (.positionLimit leg.ticker)
             max_allowed_quantity :=
               limits.max_position_per_market - contractsOf positions leg.ticker
             current_exposure_cents := current_total
             limit_exposure_cents := limits.max_total_exposure_cents }
    else if limits.max_exposure_per_market_cents <
        marketExposureOf positions leg.ticker + leg.price * quantity then
      some { allowed := false
             denial := some (.marketExposure leg.ticker)
             max_allowed_quantity := calculate_max_quantity
               (marketExposureOf positions leg.ticker) leg.price
               limits.max_exposure_per_market_cents
             current_exposure_cents := current_total
             limit_exposure_cents := limits.max_total_exposure_cents }
    else check_legs limits positions current_total quantity rest

/-- `ExposureManager.check_trade` (lines 59-133): the total-exposure
check, then the per-leg loop; approval (with
`max_allowed_quantity = quantity`) when everything passes.  All
comparisons in the source are strict `>` against the limit, so a trade
landing exactly on a limit passes. -/
def check_trade (limits : ExposureLimits) (positions : List (String × Position))
    (opportunity : ArbitrageOpportunity) (quantity : Int) : ExposureCheck :=
  if limits.max_total_exposure_cents <
      total_exposure positions + opportunity.total_cost_cents * quantity then
    { allowed := false
      denial := some .totalExposure
      max_allowed_quantity := calculate_max_quantity (total_exposure positions)
        opportunity.total_cost_cents limits.max_total_exposure_cents
      current_exposure_cents := total_exposure positions
      limit_exposure_cents := limits.max_total_exposure_cents }
  else
    match check_legs limits positions (total_exposure positions) quantity
        opportunity.legs with
    | some denial => denial
    | none =>
      { allowed := true
        denial := none
        max_allowed_quantity := quantity
        current_exposure_cents := total_exposure positions
        limit_exposure_cents := limits.max_total_exposure_cents }

/-! ## Executor quantity handling (src/execution/executor.py,
src/execution/order_manager.py) -/

/-- `OrderGroup` (only the legs matter to the claims; id and
per-leg orders are runtime artifacts). -/
structure OrderGroup where
  legs : List ArbitrageLeg
deriving DecidableEq, Repr

/-- `OrderManager.create_order_group` (lines 94-137): each leg's
quantity is replaced by `min(quantity, opportunity.max_quantity)`. -/
def create_order_group (opportunity : ArbitrageOpportunity) (quantity : Int) :
    OrderGroup :=
  { legs := opportunity.legs.map (fun leg =>
      { leg with quantity := min quantity opportunity.max_quantity }) }

/-- What `Executor._execute_internal` does before any venue interaction:
either an early failed `ExecutionResult` (carrying its error string), or
the order group that is created and submitted. -/
inductive ExecOutcome
| failed (error : String)
| submitted (group : OrderGroup)
deriving DecidableEq, Repr

/-- The quantity defaulting of `Executor._execute_internal` (lines
142-144): `qty = quantity or opportunity.max_quantity` (Python `or`, so
`None` and `0` both fall back) followed by
`qty = min(qty, opportunity.max_quantity)`. -/
def effective_quantity (opportunity : ArbitrageOpportunity)
    (quantity : Option Int) : Int :=
  let qty := match quantity with
    | none => opportunity.max_quantity
    | some q => if q = 0 then opportunity.max_quantity else q
  min qty opportunity.max_quantity

/-- `Executor._execute_internal` (lines 98-157) up to the group
submission: the circuit-breaker block in the source is a `pass`
placeholder; the detector revalidation is abstracted by the boolean
`validation_ok`; with a non-positive effective quantity the method
returns a failed result before any order group exists. -/
def execute_internal (opportunity : ArbitrageOpportunity)
    (quantity : Option Int) (validate validation_ok : Bool) : ExecOutcome :=
  if validate && !validation_ok then .failed "Opportunity no longer valid"
  else if effective_quantity opportunity quantity ≤ 0 then
    .failed "No quantity available"
  else .submitted (create_order_group opportunity (effective_quantity opportunity quantity))

/-! ## Multi-outcome strategy (src/arbitrage/strategies/multioutcome.py) -/

/-- `Market` from src/data/models.py (only the fields the strategy
reads). -/
structure Market where
  ticker : String
  event_ticker : String
deriving DecidableEq, Repr

/-- The configuration of `MultiOutcomeStrategy` (its `calculator` is a
`ProfitCalculator` whose state is the fee rate). -/
structure MultiOutcomeStrategy where
  min_profit_cents : Int
  min_markets : Nat
  max_markets : Nat
  fee_rate : ℚ
deriving DecidableEq, Repr

/-- The constructor defaults of `MultiOutcomeStrategy`
(`min_profit_cents=2, min_markets=2, max_markets=10`) with the default
fee rate. -/
def defaultMultiOutcome : MultiOutcomeStrategy :=
  { min_profit_cents := 2, min_markets := 2, max_markets := 10
    fee_rate := defaultFeeRate }

/-- `max_quantities[market.ticker] = quantity`: Python dict update, which
overwrites in place on an existing key and appends otherwise. -/
def dict_insert (d : List (String × Int)) (k : String) (v : Int) :
    List (String × Int) :=
  match d with
  | [] => [(k, v)]
  | (k0, v0) :: rest =>
    if k0 = k then (k0, v) :: rest else (k0, v0) :: dict_insert rest k v

/-- The market loop of `MultiOutcomeStrategy.detect` (lines 94-122):
for each market, look up the book, read the implied best YES ask and its
quantity, bail out (`None`) when anything is missing or the quantity is
non-positive; accumulate the BUY-YES leg (quantity 1), the max-quantity
dictionary entry and the running total cost. -/
def build_legs (orderbooks : List (String × Orderbook)) :
    List Market → List ArbitrageLeg → List (String × Int) → Int →
    Option (List ArbitrageLeg × List (String × Int) × Int)
  | [], legs, mq, tc => some (legs, mq, tc)
  | m :: rest, legs, mq, tc =>
    match orderbooks.lookup m.ticker with
    | none => none
    | some ob =>
      match ob.best_yes_ask with
      | none => none
      | some ask =>
        if ob.yes_ask_quantity ≤ 0 then none
        else
          build_legs orderbooks rest
            (legs ++ [{ ticker := m.ticker, side := .yes, action := .buy
                        price := ask, quantity := 1 }])
            (dict_insert mq m.ticker ob.yes_ask_quantity)
            (tc + ask)

/-- `MultiOutcomeStrategy._calculate_confidence` (lines 175-211), with
Python float arithmetic embedded as exact rationals: half the capped
average-quantity score plus half the book-coverage ratio. -/
def calculate_confidence (markets : List Market)
    (orderbooks : List (String × Orderbook)) : ℚ :=
  if markets = [] then 0
  else
    let quantities := markets.filterMap
      (fun m => (orderbooks.lookup m.ticker).map Orderbook.yes_ask_quantity)
    let avg_qty : ℚ :=
      if quantities = [] then 0
      else (quantities.map (fun q => (q : ℚ))).sum / (quantities.length : ℚ)
    let qty_score := min (avg_qty / 100) 1
    let coverage : ℚ := (orderbooks.length : ℚ) / (markets.length : ℚ)
    qty_score * (1 / 2) + coverage * (1 / 2)

/-- `MultiOutcomeStrategy.detect` (lines 64-173).  `GUARANTEED_PAYOUT`
is 100 cents.  The `min?` of the quantity dictionary's values models
Python `min(max_quantities.values())`; its `none` arm is unreachable
whenever `markets` is non-empty (Python would raise on an empty
sequence). -/
def MultiOutcomeStrategy.detect (st : MultiOutcomeStrategy)
    (markets : List Market) (orderbooks : List (String × Orderbook)) :
    Option ArbitrageOpportunity :=
  if markets.length < st.min_markets then none
  else if st.max_markets < markets.length then none
  else
    match build_legs orderbooks markets [] [] 0 with
    | none => none
    | some (legs, mq, total_cost) =>
      if 100 ≤ total_cost then none
      else
        let gross := 100 - total_cost
        let fees := calculate_total_fees st.fee_rate legs
        let net := gross - fees
        if net < st.min_profit_cents then none
        else
          match (mq.map Prod.snd).min? with
          | none => none
          | some max_qty =>
            some
              { event_ticker := match markets with
                  | m :: _ => m.event_ticker
                  | [] => "unknown"
                legs := legs
                total_cost_cents := total_cost
                guaranteed_return_cents := 100
                gross_profit_cents := gross
                estimated_fees_cents := fees
                net_profit_cents := net
                max_quantity := max_qty
                confidence := calculate_confidence markets orderbooks }

/-! ## Signature payload (src/core/authenticator.py)

`_create_signature_payload` strips the query string with CPython's
`urllib.parse.urlparse(path).path`.  The relevant portion of CPython's
`urlsplit`/`urlparse` pair is embedded below, character by character:
scheme split, netloc split, fragment split, query split, then the
parameter split that `urlparse` performs for schemes in `uses_params`. -/

/-- CPython `scheme_chars`: ASCII letters, digits, and `+`, `-`, `.`. -/
def scheme_chars (c : Char) : Bool :=
  c.isAlpha || c.isDigit || c == '+' || c == '-' || c == '.'

/-- Split a character list at the first character satisfying `p`: the
first component is everything strictly before it, the second everything
from it on (empty when no character matches).  This is the common core of
Python `str.find`/`str.split(sep, 1)` on a single character. -/
def breakAt (p : Char → Bool) : List Char → List Char × List Char
  | [] => ([], [])
  | c :: cs =>
    if p c then ([], c :: cs)
    else
      let r := breakAt p cs
      (c :: r.1, r.2)

/-- The scheme split of CPython `urlsplit`: when the text before the
first `:` is non-empty, starts with an ASCII letter and consists of
scheme characters, it is removed (and lower-cased as the scheme);
otherwise the input is untouched. -/
def split_scheme (url : List Char) : List Char × List Char :=
  match (breakAt (fun c => c == ':') url).2 with
  | [] => ([], url)
  | _ :: tail =>
    match (breakAt (fun c => c == ':') url).1 with
    | [] => ([], url)
    | c0 :: pre1 =>
      if c0.isAlpha && (c0 :: pre1).all scheme_chars then
        ((c0 :: pre1).map Char.toLower, tail)
      else ([], url)

/-- The netloc delimiters of CPython `_splitnetloc`. -/
def netloc_delim (c : Char) : Bool := c == '/' || c == '?' || c == '#'

/-- The netloc split of CPython `urlsplit`: when the input starts with
`//`, everything up to the next `/`, `?` or `#` is removed. -/
def split_netloc (url : List Char) : List Char :=
  match url with
  | c1 :: c2 :: rest =>
    if c1 == '/' && c2 == '/' then (breakAt netloc_delim rest).2
    else url
  | _ => url

/-- The fragment split of CPython `urlsplit`: everything from the first
`#` on is removed. -/
def split_fragment (url : List Char) : List Char :=
  (breakAt (fun c => c == '#') url).1

/-- The query split of CPython `urlsplit`: everything from the first `?`
on is removed. -/
def split_query (url : List Char) : List Char :=
  (breakAt (fun c => c == '?') url).1

/-- CPython `uses_params`: the schemes for which `urlparse` separates
`;parameters` from the path. -/
def uses_params : List (List Char) :=
  (["", "ftp", "hdl", "prospero", "http", "imap", "https", "shttp",
    "rtsp", "rtspu", "sip", "sips", "mms", "sftp", "tel"]).map String.toList

/-- Split a character list at the last occurrence of `t`: the first
component is everything strictly before it, the second everything from it
on (`([], url)` when `t` does not occur). -/
def breakAtLast (t : Char) (url : List Char) : List Char × List Char :=
  match breakAt (fun c => c == t) url.reverse with
  | (_, []) => ([], url)
  | (x, _ :: y) => (y.reverse, t :: x.reverse)

/-- CPython `_splitparams` applied to the path: drop everything from the
first `;` after the last `/` (or the first `;` overall when there is no
`/`). -/
def split_params (url : List Char) : List Char :=
  if url.contains '/' then
    match breakAt (fun c => c == ';') (breakAtLast '/' url).2 with
    | (_, []) => url
    | (b1, _ :: _) => (breakAtLast '/' url).1 ++ b1
  else (breakAt (fun c => c == ';') url).1

/-- The `.path` component of CPython `urlparse`. -/
def urlparse_path (url : List Char) : List Char :=
  if uses_params.contains (split_scheme url).1 &&
      (split_query (split_fragment (split_netloc (split_scheme url).2))).contains ';' then
    split_params (split_query (split_fragment (split_netloc (split_scheme url).2)))
  else split_query (split_fragment (split_netloc (split_scheme url).2))

/-- `KalshiAuthenticator._create_signature_payload` (lines 59-82):
`f"{timestamp}{method.upper()}{clean_path}"` with
`clean_path = urlparse(path).path`. -/
def create_signature_payload (timestamp : Int) (method path : String) : String :=
  toString timestamp ++ method.toUpper ++ String.mk (urlparse_path path.toList)

/-! ## Theorems -/

/-- An orderbook whose single NO-bid level (price 60) has only 5
contracts: the implied best YES ask is 40 with 5 contracts resting. -/
def obC8 : Orderbook := { yes_bids := [], no_bids := [{ price := 60, quantity := 5 }] }

/-- C8: requesting 10 contracts when only 5 rest at the best implied ask
still returns a price (`40 * 10 = 400`) instead of the `None` promised by
the claim and by the source's own docstring; the manager-level helper
propagates the same value. -/
theorem C8_no_liquidity_check :
    obC8.yes_ask_quantity = 5 ∧
    obC8.get_acquisition_cost .yes 10 = some 400 ∧
    get_acquisition_costs [("T", obC8)] ["T"] .yes 10 = [("T", some 400)] := by
  decide

/-- A breaker sitting in HALF_OPEN (after a trip, with one test trade
allowed). -/
def cbHalfOpen : CircuitBreaker :=
  { state := .halfOpen
    metrics := { daily_loss_cents := 0, consecutive_losses := 2
                 total_exposure_cents := 0, trip_count := 1 }
    half_open_trades := 1 }

/-- C2 counterexample: recording `profit_cents = 0` in HALF_OPEN closes
the breaker (the source treats every non-negative profit as a win), while
the claim says a zero-profit record must not close it. -/
theorem C2_counterexample :
    cbHalfOpen.state = .halfOpen ∧
    (record_trade_result defaultCBConfig cbHalfOpen 0 0).breaker.state = .closed ∧
    (record_trade_result defaultCBConfig cbHalfOpen 0 0).reset_fired = true := by
  decide

/-- C2 (amended): in HALF_OPEN the breaker transitions to CLOSED exactly
when the recorded profit is non-negative (zero counts as a win), the
reset callback fires on that transition, and any non-negative profit
zeros `consecutive_losses` in every state. -/
theorem C2_amended (cfg : CircuitBreakerConfig) (cb : CircuitBreaker)
    (profit_cents exposure_cents : Int) :
    (cb.state = .halfOpen →
      ((record_trade_result cfg cb profit_cents exposure_cents).breaker.state = .closed ↔
        0 ≤ profit_cents)) ∧
    (cb.state = .halfOpen → 0 ≤ profit_cents →
      (record_trade_result cfg cb profit_cents exposure_cents).reset_fired = true) ∧
    (0 ≤ profit_cents →
      (record_trade_result cfg cb profit_cents exposure_cents).breaker.metrics.consecutive_losses = 0) := by
  unfold record_trade_result check_trip_conditions do_trip transition_to_closed
  by_cases hl : profit_cents < 0
  · simp only [if_pos hl]
    refine ⟨fun hs => ?_, fun _ h0 => absurd h0 (by omega), fun h0 => absurd h0 (by omega)⟩
    rw [show ({ cb with metrics := _ } : CircuitBreaker).state = cb.state from rfl, hs]
    simp only [show (CircuitBreakerState.halfOpen = .opened) = False by simp, if_false]
    constructor
    · intro h
      exfalso
      split at h <;> simp_all
    · omega
  · simp only [if_neg hl]
    have h0 : 0 ≤ profit_cents := by omega
    by_cases hs : cb.state = .halfOpen
    · simp [hs, h0]
    · simp [hs, h0]

/-- C2 witness: a winning 5-cent trade recorded in HALF_OPEN closes the
breaker, fires the reset callback, and zeros `consecutive_losses`. -/
theorem C2_witness :
    (record_trade_result defaultCBConfig cbHalfOpen 5 0).breaker.state = .closed ∧
    (record_trade_result defaultCBConfig cbHalfOpen 5 0).reset_fired = true ∧
    (record_trade_result defaultCBConfig cbHalfOpen 5 0).breaker.metrics.consecutive_losses = 0 :=
  ⟨((C2_amended defaultCBConfig cbHalfOpen 5 0).1 rfl).mpr (by decide),
   (C2_amended defaultCBConfig cbHalfOpen 5 0).2.1 rfl (by decide),
   (C2_amended defaultCBConfig cbHalfOpen 5 0).2.2 (by decide)⟩

/-- A breaker in HALF_OPEN with no accumulated losses. -/
def cbHalfOpenFresh : CircuitBreaker :=
  { state := .halfOpen
    metrics := { daily_loss_cents := 0, consecutive_losses := 0
                 total_exposure_cents := 0, trip_count := 1 }
    half_open_trades := 1 }

/-- C3 counterexample: a 1-cent loss in HALF_OPEN under the default
limits leaves the breaker in HALF_OPEN — it does not re-trip, because
`record_trade_result` only trips through `_check_trip_conditions`, which
requires a threshold to be met. -/
theorem C3_counterexample :
    cbHalfOpenFresh.state = .halfOpen ∧ ((-1 : Int) < 0) ∧
    (record_trade_result defaultCBConfig cbHalfOpenFresh (-1) 0).breaker.state =
      .halfOpen := by
  decide

/-- C3 (amended): a loss recorded in HALF_OPEN re-trips the breaker to
OPEN exactly when one of the three thresholds is met by the updated
metrics (daily loss including this loss, incremented consecutive losses,
or the reported exposure); otherwise the breaker stays HALF_OPEN. -/
theorem C3_amended (cfg : CircuitBreakerConfig) (cb : CircuitBreaker)
    (profit_cents exposure_cents : Int)
    (hstate : cb.state = .halfOpen) (hloss : profit_cents < 0) :
    ((record_trade_result cfg cb profit_cents exposure_cents).breaker.state = .opened ↔
      (cfg.max_daily_loss_cents ≤ cb.metrics.daily_loss_cents + |profit_cents| ∨
       cfg.max_consecutive_losses ≤ cb.metrics.consecutive_losses + 1 ∨
       cfg.max_exposure_cents ≤ exposure_cents)) ∧
    (¬(cfg.max_daily_loss_cents ≤ cb.metrics.daily_loss_cents + |profit_cents| ∨
       cfg.max_consecutive_losses ≤ cb.metrics.consecutive_losses + 1 ∨
       cfg.max_exposure_cents ≤ exposure_cents) →
      (record_trade_result cfg cb profit_cents exposure_cents).breaker.state = .halfOpen) := by
  unfold record_trade_result check_trip_conditions do_trip trip_condition
  simp only [if_pos hloss]
  rw [show ({ cb with metrics := _ } : CircuitBreaker).state = cb.state from rfl, hstate]
  simp only [show (CircuitBreakerState.halfOpen = .opened) = False by simp, if_false]
  split_ifs with h1 h2 h3 <;> simp_all

/-- A breaker in HALF_OPEN one loss short of the consecutive-loss
threshold. -/
def cbHalfOpenFour : CircuitBreaker :=
  { state := .halfOpen
    metrics := { daily_loss_cents := 0, consecutive_losses := 4
                 total_exposure_cents := 0, trip_count := 1 }
    half_open_trades := 1 }

/-- C3 witness: a loss in HALF_OPEN that reaches the consecutive-loss
threshold (the fifth in a row under the default limit of 5) does re-trip
the breaker to OPEN. -/
theorem C3_witness :
    (record_trade_result defaultCBConfig cbHalfOpenFour (-1) 0).breaker.state =
      .opened :=
  (C3_amended defaultCBConfig cbHalfOpenFour (-1) 0 rfl (by decide)).1.mpr
    (Or.inr (Or.inl (by decide)))

/-- C10: the executor's quantity handling: a submitted order group's
per-leg quantities never exceed `opportunity.max_quantity`; a `None` or
`0` request defaults to `max_quantity`; a non-zero request `q` yields the
effective quantity `min(q, max_quantity)`; and a negative request fails
with "No quantity available" before any order group is created. -/
theorem C10_executor_quantity (opportunity : ArbitrageOpportunity)
    (quantity : Option Int) (validate validation_ok : Bool) :
    (∀ g, execute_internal opportunity quantity validate validation_ok = .submitted g →
      ∀ leg ∈ g.legs, leg.quantity ≤ opportunity.max_quantity) ∧
    (effective_quantity opportunity none = opportunity.max_quantity ∧
     effective_quantity opportunity (some 0) = opportunity.max_quantity) ∧
    (∀ q : Int, q ≠ 0 →
      effective_quantity opportunity (some q) = min q opportunity.max_quantity) ∧
    (∀ q : Int, q < 0 → (validate = false ∨ validation_ok = true) →
      execute_internal opportunity (some q) validate validation_ok =
        .failed "No quantity available") := by
  refine ⟨?_, ⟨?_, ?_⟩, ?_, ?_⟩
  · intro g hg leg hleg
    unfold execute_internal at hg
    split_ifs at hg with h1 h2
    injection hg with hg
    subst hg
    simp only [create_order_group, List.mem_map] at hleg
    obtain ⟨l0, _, rfl⟩ := hleg
    exact min_le_right _ _
  · simp [effective_quantity]
  · simp [effective_quantity]
  · intro q hq
    simp [effective_quantity, hq]
  · intro q hq hv
    have hqne : q ≠ 0 := by omega
    have heq : effective_quantity opportunity (some q) ≤ 0 := by
      simp only [effective_quantity, if_neg hqne]
      exact le_trans (min_le_left _ _) (by omega)
    have hcond : (validate && !validation_ok) = false := by
      rcases hv with h | h <;> simp [h]
    unfold execute_internal
    rw [hcond]
    simp only [Bool.false_eq_true, if_false, if_pos heq]

/-- A small opportunity record used for concrete executor inputs. -/
def oppC10 : ArbitrageOpportunity :=
  { event_ticker := "EVT"
    legs := [{ ticker := "T1", side := .yes, action := .buy, price := 40, quantity := 1 }]
    total_cost_cents := 40
    guaranteed_return_cents := 100
    gross_profit_cents := 60
    estimated_fees_cents := 1
    net_profit_cents := 59
    max_quantity := 7
    confidence := 1 }

/-- C10 witness: with `max_quantity = 7`, a `None` request defaults to 7
and a request of `-3` fails with "No quantity available". -/
theorem C10_witness :
    effective_quantity oppC10 none = oppC10.max_quantity ∧
    execute_internal oppC10 (some (-3)) false false =
      .failed "No quantity available" := by
  exact ⟨(C10_executor_quantity oppC10 none false false).2.1.1,
    (C10_executor_quantity oppC10 none false false).2.2.2 (-3) (by decide) (Or.inl rfl)⟩

/-- The two per-market constraints of the exposure gate for one leg. -/
def leg_constraints (limits : ExposureLimits) (positions : List (String × Position))
    (quantity : Int) (leg : ArbitrageLeg) : Prop :=
  contractsOf positions leg.ticker + quantity ≤ limits.max_position_per_market ∧
  marketExposureOf positions leg.ticker + leg.price * quantity ≤
    limits.max_exposure_per_market_cents

instance (limits positions quantity leg) :
    Decidable (leg_constraints limits positions quantity leg) := by
  unfold leg_constraints
  infer_instance

/-- The per-leg loop passes (returns `none`) exactly when every leg meets
both per-market constraints. -/
theorem check_legs_eq_none_iff (limits : ExposureLimits)
    (positions : List (String × Position)) (current_total quantity : Int)
    (legs : List ArbitrageLeg) :
    check_legs limits positions current_total quantity legs = none ↔
      ∀ leg ∈ legs, leg_constraints limits positions quantity leg := by
  induction legs with
  | nil => simp [check_legs]
  | cons leg rest ih =>
    unfold check_legs
    split_ifs with h1 h2
    · simp only [List.mem_cons]
      constructor
      · intro h
        exact absurd h (by simp)
      · intro h
        exact absurd (h leg (Or.inl rfl)).1 (by omega)
    · simp only [List.mem_cons]
      constructor
      · intro h
        exact absurd h (by simp)
      · intro h
        exact absurd (h leg (Or.inl rfl)).2 (by omega)
    · rw [ih]
      constructor
      · intro h l hl
        rcases List.mem_cons.mp hl with rfl | hl
        · exact ⟨by omega, by omega⟩
        · exact h l hl
      · intro h l hl
        exact h l (List.mem_cons_of_mem _ hl)

/-- What a denial produced by the per-leg loop looks like: not allowed,
and either a position-limit denial for some leg's ticker with the
closed-form remaining quantity, or a per-market-exposure denial for some
leg's ticker with `_calculate_max_quantity` of that leg's price. -/
theorem check_legs_eq_some_spec (limits : ExposureLimits)
    (positions : List (String × Position)) (current_total quantity : Int)
    (legs : List ArbitrageLeg) (d : ExposureCheck)
    (h : check_legs limits positions current_total quantity legs = some d) :
    d.allowed = false ∧
    ((∃ t, d.denial = some (.positionLimit t) ∧ (∃ leg ∈ legs, leg.ticker = t) ∧
        limits.max_position_per_market < contractsOf positions t + quantity ∧
        d.max_allowed_quantity =
          limits.max_position_per_market - contractsOf positions t) ∨
     (∃ t, d.denial = some (.marketExposure t) ∧
        ∃ leg ∈ legs, leg.ticker = t ∧
          limits.max_exposure_per_market_cents <
            marketExposureOf positions t + leg.price * quantity ∧
          d.max_allowed_quantity = calculate_max_quantity
            (marketExposureOf positions t) leg.price
            limits.max_exposure_per_market_cents)) := by
  induction legs with
  | nil => simp [check_legs] at h
  | cons leg rest ih =>
    unfold check_legs at h
    split_ifs at h with h1 h2
    · injection h with h
      subst h
      refine ⟨rfl, Or.inl ⟨leg.ticker, rfl, ⟨leg, List.mem_cons_self _ _, rfl⟩, h1, rfl⟩⟩
    · injection h with h
      subst h
      refine ⟨rfl, Or.inr ⟨leg.ticker, rfl, leg, List.mem_cons_self _ _, rfl, h2, rfl⟩⟩
    · obtain ⟨ha, hd | hd⟩ := ih h
      · obtain ⟨t, h1, ⟨l, hl, hlt⟩, h3, h4⟩ := hd
        exact ⟨ha, Or.inl ⟨t, h1, ⟨l, List.mem_cons_of_mem _ hl, hlt⟩, h3, h4⟩⟩
      · obtain ⟨t, h1, l, hl, hlt, h3, h4⟩ := hd
        exact ⟨ha, Or.inr ⟨t, h1, l, List.mem_cons_of_mem _ hl, hlt, h3, h4⟩⟩

/-- C4: the exposure gate approves exactly when all three inequalities
hold after hypothetically applying the trade — the total-exposure bound
and, for every leg, the per-market position and per-market exposure
bounds.  All bounds are non-strict, so a trade landing exactly on a
limit is approved. -/
theorem C4_check_trade_iff (limits : ExposureLimits)
    (positions : List (String × Position)) (opportunity : ArbitrageOpportunity)
    (quantity : Int) :
    (check_trade limits positions opportunity quantity).allowed = true ↔
      (total_exposure positions + opportunity.total_cost_cents * quantity ≤
          limits.max_total_exposure_cents ∧
       ∀ leg ∈ opportunity.legs,
         contractsOf positions leg.ticker + quantity ≤
             limits.max_position_per_market ∧
         marketExposureOf positions leg.ticker + leg.price * quantity ≤
             limits.max_exposure_per_market_cents) := by
  unfold check_trade
  split_ifs with h1
  · simp only [Bool.false_eq_true, false_iff, not_and]
    intro h
    omega
  · rcases hcl : check_legs limits positions (total_exposure positions) quantity
        opportunity.legs with _ | d
    · simp only [hcl, true_iff]
      refine ⟨by omega, fun leg hleg => ?_⟩
      exact (check_legs_eq_none_iff _ _ _ _ _).mp hcl leg hleg
    · simp only [hcl]
      have hd := check_legs_eq_some_spec _ _ _ _ _ _ hcl
      rw [hd.1]
      simp only [Bool.false_eq_true, false_iff, not_and]
      intro _
      intro hall
      rcases hd.2 with ⟨t, _, ⟨l, hl, rfl⟩, hv, _⟩ | ⟨t, _, l, hl, rfl, hv, _⟩
      · exact absurd (hall l hl).1 (by omega)
      · exact absurd (hall l hl).2 (by omega)

/-- Exposure limits used in the C4 witness: total 100 cents, 10
contracts per market, 100 cents per market. -/
def limitsC4 : ExposureLimits :=
  { max_total_exposure_cents := 100
    max_position_per_market := 10
    max_exposure_per_market_cents := 100 }

/-- An existing 5-contract, 50-cent position on ticker T1. -/
def positionsC4 : List (String × Position) :=
  [("T1", { market_exposure := 50, position := 5 })]

/-- An opportunity with a single 10-cent BUY leg on T1. -/
def oppC4 : ArbitrageOpportunity :=
  { event_ticker := "EVT"
    legs := [{ ticker := "T1", side := .yes, action := .buy, price := 10, quantity := 1 }]
    total_cost_cents := 10
    guaranteed_return_cents := 100
    gross_profit_cents := 90
    estimated_fees_cents := 1
    net_profit_cents := 89
    max_quantity := 5
    confidence := 1 }

/-- C4 witness: buying 5 more contracts lands exactly on all three limits
(total 50 + 10·5 = 100, position 5 + 5 = 10, market exposure
50 + 10·5 = 100) and is approved. -/
theorem C4_witness : (check_trade limitsC4 positionsC4 oppC4 5).allowed = true :=
  (C4_check_trade_iff limitsC4 positionsC4 oppC4 5).mpr (by decide)

/-- `_calculate_max_quantity` returns the greatest `k ≥ 0` with
`current + per_unit_cost * k ≤ limit`, whenever the per-unit cost is
positive and `k = 0` itself satisfies the constraint. -/
theorem calculate_max_quantity_greatest (current per_unit_cost limit : Int)
    (hper : 0 < per_unit_cost) (hrem : 0 ≤ limit - current) (k : Int) :
    k ≤ calculate_max_quantity current per_unit_cost limit ↔
      current + per_unit_cost * k ≤ limit := by
  unfold calculate_max_quantity
  rw [if_neg (by omega)]
  rw [Int.fdiv_eq_ediv _ hper.le]
  rw [max_eq_right (Int.ediv_nonneg hrem hper.le)]
  rw [Int.le_ediv_iff_mul_le hper]
  constructor <;> intro h <;> nlinarith [h]

/-- Exposure limits for the C5 counterexample: tiny position limit (3)
but loose exposure limits. -/
def limitsC5 : ExposureLimits :=
  { max_total_exposure_cents := 100
    max_position_per_market := 3
    max_exposure_per_market_cents := 1000 }

/-- C5 counterexample: with no existing positions, a 10-cent single-leg
opportunity and a request of 20 contracts, the gate denies on the total
exposure limit and reports `max_allowed_quantity = 10`; but 10 contracts
violate the position limit (`0 + 10 > 3`), so 10 is not the largest
quantity satisfying all constraints (3 is, as the witness inequalities
show). -/
theorem C5_counterexample :
    (check_trade limitsC5 [] oppC4 20).allowed = false ∧
    (check_trade limitsC5 [] oppC4 20).max_allowed_quantity = 10 ∧
    ¬(contractsOf [] "T1" + 10 ≤ limitsC5.max_position_per_market) ∧
    (check_trade limitsC5 [] oppC4 10).allowed = false ∧
    (check_trade limitsC5 [] oppC4 3).allowed = true ∧
    (check_trade limitsC5 [] oppC4 4).allowed = false := by
  decide

/-- C5 (amended): when the gate denies, `max_allowed_quantity` is the
largest `q ≥ 0` satisfying the single constraint that triggered the
denial (assuming that constraint has a positive per-unit cost and is
satisfiable at `q = 0` where division is involved) — not the largest `q`
satisfying all constraints. -/
theorem C5_amended (limits : ExposureLimits)
    (positions : List (String × Position)) (opportunity : ArbitrageOpportunity)
    (quantity : Int) :
    ((check_trade limits positions opportunity quantity).denial =
        some .totalExposure →
      0 < opportunity.total_cost_cents →
      0 ≤ limits.max_total_exposure_cents - total_exposure positions →
      ∀ k : Int, 0 ≤ k →
        (k ≤ (check_trade limits positions opportunity quantity).max_allowed_quantity ↔
          total_exposure positions + opportunity.total_cost_cents * k ≤
            limits.max_total_exposure_cents)) ∧
    (∀ t, (check_trade limits positions opportunity quantity).denial =
        some (.positionLimit t) →
      ∀ k : Int,
        (k ≤ (check_trade limits positions opportunity quantity).max_allowed_quantity ↔
          contractsOf positions t + k ≤ limits.max_position_per_market)) ∧
    (∀ t, (check_trade limits positions opportunity quantity).denial =
        some (.marketExposure t) →
      ∃ leg ∈ opportunity.legs, leg.ticker = t ∧
        (0 < leg.price →
         0 ≤ limits.max_exposure_per_market_cents - marketExposureOf positions t →
         ∀ k : Int, 0 ≤ k →
          (k ≤ (check_trade limits positions opportunity quantity).max_allowed_quantity ↔
            marketExposureOf positions t + leg.price * k ≤
              limits.max_exposure_per_market_cents))) := by
  unfold check_trade
  split_ifs with h1
  · refine ⟨fun _ hc hr k hk => ?_, fun t ht => ?_, fun t ht => ?_⟩
    · exact calculate_max_quantity_greatest _ _ _ hc hr k
    · exact absurd ht (by simp)
    · exact absurd ht (by simp)
  · rcases hcl : check_legs limits positions (total_exposure positions) quantity
        opportunity.legs with _ | d
    · simp only [hcl]
      refine ⟨fun h => ?_, fun t h => ?_, fun t h => ?_⟩ <;>
        exact absurd h (by simp)
    · simp only [hcl]
      have hd := check_legs_eq_some_spec _ _ _ _ _ _ hcl
      rcases hd.2 with ⟨t0, hden, _, _, hmax⟩ | ⟨t0, hden, l, hl, hlt, _, hmax⟩
      · refine ⟨fun h => ?_, fun t ht => ?_, fun t ht => ?_⟩
        · rw [hden] at h
          exact absurd h (by simp)
        · rw [hden] at ht
          have : t0 = t := by
            injection ht with ht
            injection ht
          subst this
          intro k
          rw [hmax]
          omega
        · rw [hden] at ht
          exact absurd ht (by simp)
      · refine ⟨fun h => ?_, fun t ht => ?_, fun t ht => ?_⟩
        · rw [hden] at h
          exact absurd h (by simp)
        · rw [hden] at ht
          exact absurd ht (by simp)
        · rw [hden] at ht
          have : t0 = t := by
            injection ht with ht
            injection ht
          subst this
          refine ⟨l, hl, hlt, fun hp hr k hk => ?_⟩
          rw [hmax]
          exact calculate_max_quantity_greatest _ _ _ hp hr k

/-- C5 witness: in the counterexample scenario the denial is on total
exposure and `max_allowed_quantity = 10` is indeed the largest quantity
satisfying the total-exposure constraint alone: 10 satisfies it and 11
does not. -/
theorem C5_witness :
    ((10 : Int) ≤ (check_trade limitsC5 [] oppC4 20).max_allowed_quantity ↔
      total_exposure [] + oppC4.total_cost_cents * 10 ≤
        limitsC5.max_total_exposure_cents) ∧
    ((11 : Int) ≤ (check_trade limitsC5 [] oppC4 20).max_allowed_quantity ↔
      total_exposure [] + oppC4.total_cost_cents * 11 ≤
        limitsC5.max_total_exposure_cents) :=
  ⟨(C5_amended limitsC5 [] oppC4 20).1 (by decide) (by decide) (by decide) 10 (by decide),
   (C5_amended limitsC5 [] oppC4 20).1 (by decide) (by decide) (by decide) 11 (by decide)⟩

/-! ### Fee estimator (C7) -/

theorem foldl_max_init_le (l : List Int) (a : Int) : a ≤ l.foldl max a := by
  induction l generalizing a with
  | nil => exact le_refl a
  | cons x xs ih => exact le_trans (le_max_left a x) (ih (max a x))

theorem foldl_max_mem_le (l : List Int) (a : Int) :
    ∀ x ∈ l, x ≤ l.foldl max a := by
  induction l generalizing a with
  | nil => intro x hx; simp at hx
  | cons y ys ih =>
    intro x hx
    rcases List.mem_cons.mp hx with rfl | hx
    · exact le_trans (le_max_right a x) (foldl_max_init_le ys (max a x))
    · exact ih (max a y) x hx

theorem foldl_max_eq_or_mem (l : List Int) (a : Int) :
    l.foldl max a = a ∨ l.foldl max a ∈ l := by
  induction l generalizing a with
  | nil => exact Or.inl rfl
  | cons y ys ih =>
    rcases ih (max a y) with h | h
    · rw [List.foldl_cons, h]
      rcases max_choice a y with hm | hm
      · exact Or.inl hm
      · exact Or.inr (by rw [hm]; exact List.mem_cons_self _ _)
    · exact Or.inr (List.mem_cons_of_mem _ h)

/-- The fee fold of `calculate_total_fees` is the fold of `max` over the
per-BUY-leg fee list. -/
theorem calculate_total_fees_eq_foldl (fee_rate : ℚ) (legs : List ArbitrageLeg) :
    calculate_total_fees fee_rate legs = (buyLegFees fee_rate legs).foldl max 0 := by
  unfold calculate_total_fees buyLegFees
  generalize (0 : Int) = a
  induction legs generalizing a with
  | nil => rfl
  | cons leg rest ih =>
    by_cases hb : leg.action = .buy
    · rw [List.foldl_cons, if_pos hb,
        List.filter_cons_of_pos (by simpa using hb), List.map_cons,
        List.foldl_cons]
      exact ih (max a (legBuyFee fee_rate leg))
    · rw [List.foldl_cons, if_neg hb,
        List.filter_cons_of_neg (by simpa using hb)]
      exact ih a

/-- `Decimal` ROUND_UP is monotone. -/
theorem roundUpQ_mono {a b : ℚ} (h : a ≤ b) : roundUpQ a ≤ roundUpQ b := by
  unfold roundUpQ
  split_ifs with ha hb hb
  · exact Int.ceil_le_ceil h
  · exact absurd (le_trans ha h) hb
  · have h1 : (⌊a⌋ : ℚ) ≤ a := Int.floor_le a
    have h2 : (b : ℚ) ≤ ⌈b⌉ := Int.le_ceil b
    exact_mod_cast le_trans h1 (le_trans h h2)
  · exact Int.floor_le_floor h

/-- C7: `calculate_total_fees` is the maximum over BUY legs of
`ceil(fee_rate * (100 - price) * quantity)` (for legs with a price of at
most 100 and a non-negative quantity, so that ROUND_UP coincides with
`ceil`): every BUY-leg fee is bounded by the result, the result is one of
the BUY-leg fees when any exist and 0 otherwise (SELL legs contribute
nothing); and for two BUY legs with equal price the larger quantity gives
the larger-or-equal fee. -/
theorem C7_fee_estimator (fee_rate : ℚ) (legs : List ArbitrageLeg)
    (hrate : 0 ≤ fee_rate)
    (hlegs : ∀ leg ∈ legs, leg.price ≤ 100 ∧ 0 ≤ leg.quantity) :
    (∀ leg ∈ legs,
      legBuyFee fee_rate leg = ⌈fee_rate * ((100 : ℚ) - (leg.price : ℚ)) * (leg.quantity : ℚ)⌉) ∧
    (buyLegFees fee_rate legs = [] → calculate_total_fees fee_rate legs = 0) ∧
    (∀ f ∈ buyLegFees fee_rate legs, f ≤ calculate_total_fees fee_rate legs) ∧
    (buyLegFees fee_rate legs ≠ [] →
      calculate_total_fees fee_rate legs ∈ buyLegFees fee_rate legs) ∧
    (∀ l1 l2 : ArbitrageLeg, l1.price = l2.price → l1.price ≤ 100 →
      l1.quantity ≤ l2.quantity → legBuyFee fee_rate l1 ≤ legBuyFee fee_rate l2) := by
  have harg : ∀ leg : ArbitrageLeg, leg.price ≤ 100 → 0 ≤ leg.quantity →
      (0 : ℚ) ≤ ((100 : ℚ) - (leg.price : ℚ)) * fee_rate * (leg.quantity : ℚ) := by
    intro leg hp hq
    have hp1 : (leg.price : ℚ) ≤ 100 := by exact_mod_cast hp
    have hq1 : (0 : ℚ) ≤ (leg.quantity : ℚ) := by exact_mod_cast hq
    have h1 : (0 : ℚ) ≤ (100 : ℚ) - (leg.price : ℚ) := by linarith
    exact mul_nonneg (mul_nonneg h1 hrate) hq1
  have hceil : ∀ leg ∈ legs,
      legBuyFee fee_rate leg = ⌈fee_rate * ((100 : ℚ) - (leg.price : ℚ)) * (leg.quantity : ℚ)⌉ := by
    intro leg hleg
    obtain ⟨hp, hq⟩ := hlegs leg hleg
    unfold legBuyFee roundUpQ
    rw [if_pos (harg leg hp hq)]
    congr 1
    ring
  have hfee_nonneg : ∀ f ∈ buyLegFees fee_rate legs, 0 ≤ f := by
    intro f hf
    obtain ⟨leg, hleg, rfl⟩ := List.mem_map.mp hf
    have hleg2 := List.mem_filter.mp hleg
    obtain ⟨hp, hq⟩ := hlegs leg hleg2.1
    unfold legBuyFee roundUpQ
    rw [if_pos (harg leg hp hq)]
    exact Int.ceil_nonneg (harg leg hp hq)
  refine ⟨hceil, ?_, ?_, ?_, ?_⟩
  · intro h
    rw [calculate_total_fees_eq_foldl, h]
    rfl
  · intro f hf
    rw [calculate_total_fees_eq_foldl]
    exact foldl_max_mem_le _ 0 f hf
  · intro hne
    rw [calculate_total_fees_eq_foldl]
    rcases foldl_max_eq_or_mem (buyLegFees fee_rate legs) 0 with h | h
    · rcases List.exists_mem_of_ne_nil _ hne with ⟨x, hx⟩
      have hle := foldl_max_mem_le (buyLegFees fee_rate legs) 0 x hx
      have hge := hfee_nonneg x hx
      have : x = (buyLegFees fee_rate legs).foldl max 0 := by omega
      rw [← this]
      exact hx
    · exact h
  · intro l1 l2 hp hple hq
    unfold legBuyFee
    apply roundUpQ_mono
    rw [hp]
    have hple2 : (l2.price : ℚ) ≤ 100 := by
      rw [← hp]
      exact_mod_cast hple
    have h1 : (0 : ℚ) ≤ ((100 : ℚ) - (l2.price : ℚ)) * fee_rate :=
      mul_nonneg (by linarith) hrate
    have hq2 : (l1.quantity : ℚ) ≤ (l2.quantity : ℚ) := by exact_mod_cast hq
    exact mul_le_mul_of_nonneg_left hq2 h1

/-- Concrete legs used by the C7 witness: one SELL leg and two BUY legs
with the default fee rate; fee 1 on the 40-cent leg with quantity 2 is
`ceil(0.007 * 60 * 2) = 1`. -/
def legsC7 : List ArbitrageLeg :=
  [{ ticker := "S", side := .yes, action := .sell, price := 50, quantity := 9 },
   { ticker := "A", side := .yes, action := .buy, price := 40, quantity := 2 },
   { ticker := "B", side := .yes, action := .buy, price := 30, quantity := 1 }]

/-- C7 witness: on `legsC7` with the default 0.7 percent rate, the total
fee is one of the BUY-leg fees, bounds them all, and the equal-price
monotonicity holds at quantity 1 versus 2. -/
theorem C7_witness :
    calculate_total_fees defaultFeeRate legsC7 ∈ buyLegFees defaultFeeRate legsC7 ∧
    (∀ f ∈ buyLegFees defaultFeeRate legsC7, f ≤ calculate_total_fees defaultFeeRate legsC7) ∧
    legBuyFee defaultFeeRate { ticker := "A", side := .yes, action := .buy, price := 40, quantity := 1 } ≤
      legBuyFee defaultFeeRate { ticker := "A", side := .yes, action := .buy, price := 40, quantity := 2 } := by
  have h := C7_fee_estimator defaultFeeRate legsC7 (by norm_num [defaultFeeRate])
    (by decide)
  exact ⟨h.2.2.2.1 (by decide), h.2.2.1,
    h.2.2.2.2 _ _ rfl (by decide) (by decide)⟩

/-! ### Detector ranking (C1) -/

/-- The running-best fold of Python `max(profitable, key=score)`: the
result is an element of the candidate list and its score bounds every
candidate's score. -/
theorem foldl_best_spec (t : List ArbitrageOpportunity) (h : ArbitrageOpportunity) :
    (t.foldl (fun best o => if score best < score o then o else best) h) ∈ h :: t ∧
    ∀ o ∈ h :: t,
      score o ≤ score (t.foldl (fun best o => if score best < score o then o else best) h) := by
  induction t generalizing h with
  | nil =>
    refine ⟨List.mem_cons_self _ _, ?_⟩
    intro o ho
    rcases List.mem_cons.mp ho with rfl | ho
    · exact le_refl _
    · simp at ho
  | cons x xs ih =>
    rw [List.foldl_cons]
    by_cases hc : score h < score x
    · rw [if_pos hc]
      obtain ⟨hmem, hbound⟩ := ih x
      refine ⟨List.mem_cons_of_mem _ hmem, ?_⟩
      intro o ho
      rcases List.mem_cons.mp ho with rfl | ho2
      · exact le_trans (le_of_lt hc) (hbound x (List.mem_cons_self _ _))
      · exact hbound o ho2
    · rw [if_neg hc]
      obtain ⟨hmem, hbound⟩ := ih h
      constructor
      · rcases List.mem_cons.mp hmem with he | hm
        · exact List.mem_cons.mpr (Or.inl he)
        · exact List.mem_cons_of_mem _ (List.mem_cons_of_mem _ hm)
      · intro o ho
        rcases List.mem_cons.mp ho with rfl | ho2
        · exact hbound o (List.mem_cons_self _ _)
        · rcases List.mem_cons.mp ho2 with rfl | ho3
          · exact le_trans (not_lt.mp hc) (hbound h (List.mem_cons_self _ _))
          · exact hbound o (List.mem_cons_of_mem _ ho3)

/-- C1 (amended): `get_best_opportunity` returns `None` exactly when no
candidate is profitable (`net_profit_cents > 0`); otherwise it returns a
profitable candidate from the list that maximises the composite score
`net_profit * 100 + confidence * 10 + max_quantity` — which is not the
lexicographic order of the claim, since an unbounded `max_quantity` can
outweigh a deficit in `net_profit`. -/
theorem C1_amended (opportunities : List ArbitrageOpportunity) :
    (get_best_opportunity opportunities = none ↔
      ∀ o ∈ opportunities, o.is_profitable = false) ∧
    (∀ best, get_best_opportunity opportunities = some best →
      best ∈ opportunities ∧ best.is_profitable = true ∧
      ∀ o ∈ opportunities, o.is_profitable = true → score o ≤ score best) := by
  rcases hf : opportunities.filter (fun o => o.is_profitable) with _ | ⟨h, t⟩
  · have hnone : get_best_opportunity opportunities = none := by
      unfold get_best_opportunity
      rw [hf]
    rw [hnone]
    constructor
    · constructor
      · intro _ o ho
        by_contra hcon
        have hmem : o ∈ opportunities.filter (fun o => o.is_profitable) :=
          List.mem_filter.mpr ⟨ho, by simpa using hcon⟩
        rw [hf] at hmem
        simp at hmem
      · intro _
        rfl
    · intro best hb
      exact absurd hb (by simp)
  · have hsome : get_best_opportunity opportunities =
        some (t.foldl (fun best o => if score best < score o then o else best) h) := by
      unfold get_best_opportunity
      rw [hf]
    rw [hsome]
    constructor
    · constructor
      · intro hc
        exact absurd hc (by simp)
      · intro hall
        exfalso
        have hh : h ∈ opportunities.filter (fun o => o.is_profitable) := by
          rw [hf]
          exact List.mem_cons_self _ _
        have hh2 := List.mem_filter.mp hh
        have := hall h hh2.1
        rw [this] at hh2
        simp at hh2
    · intro best hb
      injection hb with hb
      obtain ⟨hmem, hbound⟩ := foldl_best_spec t h
      rw [hb] at hmem hbound
      have hbf : best ∈ opportunities.filter (fun o => o.is_profitable) := by
        rw [hf]
        exact hmem
      have hbf2 := List.mem_filter.mp hbf
      refine ⟨hbf2.1, by simpa using hbf2.2, ?_⟩
      intro o ho hop
      have hof : o ∈ opportunities.filter (fun o => o.is_profitable) :=
        List.mem_filter.mpr ⟨ho, by simp [hop]⟩
      rw [hf] at hof
      exact hbound o hof

/-- A profitable candidate with tiny profit but huge liquidity. -/
def oppSmallProfitBigQty : ArbitrageOpportunity :=
  { event_ticker := "E1"
    legs := []
    total_cost_cents := 99
    guaranteed_return_cents := 100
    gross_profit_cents := 1
    estimated_fees_cents := 0
    net_profit_cents := 1
    max_quantity := 200
    confidence := 0 }

/-- A strictly more profitable candidate with small liquidity. -/
def oppBigProfitSmallQty : ArbitrageOpportunity :=
  { event_ticker := "E1"
    legs := []
    total_cost_cents := 98
    guaranteed_return_cents := 100
    gross_profit_cents := 2
    estimated_fees_cents := 0
    net_profit_cents := 2
    max_quantity := 1
    confidence := 0 }

/-- C1 counterexample: the composite score `net*100 + conf*10 + max_qty`
prefers a 1-cent-profit candidate with `max_quantity = 200` (score 300)
over a 2-cent-profit candidate with `max_quantity = 1` (score 201), so
the returned best is not maximal in the claimed lexicographic order on
`(net_profit, confidence, max_quantity)`. -/
theorem C1_counterexample :
    get_best_opportunity [oppSmallProfitBigQty, oppBigProfitSmallQty] =
      some oppSmallProfitBigQty ∧
    oppSmallProfitBigQty.net_profit_cents < oppBigProfitSmallQty.net_profit_cents ∧
    oppBigProfitSmallQty.is_profitable = true := by
  refine ⟨?_, by decide, by decide⟩
  norm_num [get_best_opportunity, List.filter, ArbitrageOpportunity.is_profitable,
    oppSmallProfitBigQty, oppBigProfitSmallQty, score]

/-- C1 witness: applying the amended theorem to the two-candidate list:
the returned candidate is in the list, is profitable, and its composite
score bounds the other profitable candidate's score. -/
theorem C1_witness :
    oppSmallProfitBigQty ∈ [oppSmallProfitBigQty, oppBigProfitSmallQty] ∧
    oppSmallProfitBigQty.is_profitable = true ∧
    score oppBigProfitSmallQty ≤ score oppSmallProfitBigQty := by
  have h := (C1_amended [oppSmallProfitBigQty, oppBigProfitSmallQty]).2
    oppSmallProfitBigQty
    (by norm_num [get_best_opportunity, List.filter,
      ArbitrageOpportunity.is_profitable, oppSmallProfitBigQty,
      oppBigProfitSmallQty, score])
  exact ⟨h.1, h.2.1, h.2.2 oppBigProfitSmallQty (by decide) (by decide)⟩

/-! ### Multi-outcome strategy (C6) -/

/-- Inserting a fresh key into a Python dict appends it. -/
theorem dict_insert_of_not_mem (d : List (String × Int)) (k : String) (v : Int)
    (h : k ∉ d.map Prod.fst) : dict_insert d k v = d ++ [(k, v)] := by
  induction d with
  | nil => rfl
  | cons p rest ih =>
    obtain ⟨k0, v0⟩ := p
    simp only [List.map_cons, List.mem_cons, not_or] at h
    unfold dict_insert
    rw [if_neg (fun he => h.1 he.symm), ih h.2]
    rfl

/-- Closed form of the market loop of `MultiOutcomeStrategy.detect` when
every market has a book with an implied best YES ask `a m` of positive
quantity `q m` and tickers are pairwise distinct: the loop succeeds and
appends one BUY-YES leg per market (quantity 1), one quantity-dictionary
entry per market, and sums the asks. -/
theorem build_legs_spec (orderbooks : List (String × Orderbook)) (a q : Market → Int)
    (ms : List Market) :
    ∀ (legs0 : List ArbitrageLeg) (mq0 : List (String × Int)) (tc0 : Int),
    (∀ m ∈ ms,
      (orderbooks.lookup m.ticker).map Orderbook.best_yes_ask = some (some (a m)) ∧
      (orderbooks.lookup m.ticker).map Orderbook.yes_ask_quantity = some (q m)) →
    (∀ m ∈ ms, 0 < q m) →
    (ms.map Market.ticker).Nodup →
    (∀ m ∈ ms, m.ticker ∉ mq0.map Prod.fst) →
    build_legs orderbooks ms legs0 mq0 tc0 =
      some (legs0 ++ ms.map (fun m =>
              { ticker := m.ticker, side := .yes, action := .buy
                price := a m, quantity := 1 }),
            mq0 ++ ms.map (fun m => (m.ticker, q m)),
            tc0 + (ms.map a).sum) := by
  induction ms with
  | nil =>
    intro legs0 mq0 tc0 _ _ _ _
    simp [build_legs]
  | cons m rest ih =>
    intro legs0 mq0 tc0 hbooks hq hnd hkeys
    obtain ⟨hask, hqty⟩ := hbooks m (List.mem_cons_self _ _)
    rcases hlk : orderbooks.lookup m.ticker with _ | ob
    · rw [hlk] at hask
      simp at hask
    · rw [hlk] at hask hqty
      simp only [Option.map_some', Option.some.injEq] at hask hqty
      have hnd2 : m.ticker ∉ List.map Market.ticker rest ∧
          (List.map Market.ticker rest).Nodup := by
        rw [List.map_cons, List.nodup_cons] at hnd
        exact hnd
      unfold build_legs
      rw [hlk]
      simp only [hask]
      rw [if_neg (by rw [hqty]; exact not_le.mpr (hq m (List.mem_cons_self _ _)))]
      rw [hqty, dict_insert_of_not_mem mq0 _ _ (hkeys m (List.mem_cons_self _ _))]
      rw [ih (legs0 ++ [_]) (mq0 ++ [(m.ticker, q m)]) (tc0 + a m)
        (fun m2 hm2 => hbooks m2 (List.mem_cons_of_mem _ hm2))
        (fun m2 hm2 => hq m2 (List.mem_cons_of_mem _ hm2))
        hnd2.2
        (fun m2 hm2 => by
          simp only [List.map_append, List.mem_append, List.map_cons,
            List.map_nil, List.mem_singleton, not_or]
          refine ⟨hkeys m2 (List.mem_cons_of_mem _ hm2), fun he => ?_⟩
          exact hnd2.1 (he ▸ List.mem_map_of_mem Market.ticker hm2))]
      simp only [List.map_cons, List.sum_cons, List.append_assoc,
        List.singleton_append, Option.some.injEq, Prod.mk.injEq]
      refine ⟨trivial, trivial, by ring⟩

/-- C6: for markets whose books all carry an implied best YES ask `a m`
with positive resting quantity `q m` (distinct tickers, count within the
strategy's market bounds), `detect` emits no opportunity exactly when
`Σ a < 100` fails or the net profit falls below `min_profit_cents`, and
any emitted opportunity has one BUY-YES leg per market at `a m` with
quantity 1, `total_cost = Σ a`, `gross = 100 - Σ a`, the fee estimator's
fees, `net = gross - fees`, and `max_quantity` equal to the minimum of
the `q m`. -/
theorem C6_multioutcome (st : MultiOutcomeStrategy) (markets : List Market)
    (orderbooks : List (String × Orderbook)) (a q : Market → Int)
    (hbooks : ∀ m ∈ markets,
      (orderbooks.lookup m.ticker).map Orderbook.best_yes_ask = some (some (a m)) ∧
      (orderbooks.lookup m.ticker).map Orderbook.yes_ask_quantity = some (q m))
    (hq : ∀ m ∈ markets, 0 < q m)
    (hnd : (markets.map Market.ticker).Nodup)
    (hne : markets ≠ [])
    (hmin : st.min_markets ≤ markets.length)
    (hmax : markets.length ≤ st.max_markets) :
    (st.detect markets orderbooks = none ↔
      (100 ≤ (markets.map a).sum ∨
       100 - (markets.map a).sum - calculate_total_fees st.fee_rate
         (markets.map (fun m =>
           { ticker := m.ticker, side := .yes, action := .buy
             price := a m, quantity := 1 })) < st.min_profit_cents)) ∧
    (∀ opp, st.detect markets orderbooks = some opp →
      opp.legs = markets.map (fun m =>
        { ticker := m.ticker, side := .yes, action := .buy
          price := a m, quantity := 1 }) ∧
      opp.total_cost_cents = (markets.map a).sum ∧
      opp.guaranteed_return_cents = 100 ∧
      opp.gross_profit_cents = 100 - (markets.map a).sum ∧
      opp.estimated_fees_cents = calculate_total_fees st.fee_rate opp.legs ∧
      opp.net_profit_cents = opp.gross_profit_cents - opp.estimated_fees_cents ∧
      (markets.map q).min? = some opp.max_quantity) := by
  unfold MultiOutcomeStrategy.detect
  rw [if_neg (not_lt.mpr hmin), if_neg (not_lt.mpr hmax)]
  rw [build_legs_spec orderbooks a q markets [] [] 0 hbooks hq hnd
    (by intro m _; simp)]
  simp only [List.nil_append, zero_add]
  have hval : (markets.map (fun m => (m.ticker, q m))).map Prod.snd = markets.map q := by
    rw [List.map_map]
    rfl
  rcases hm : (markets.map q).min? with _ | v
  · rw [List.min?_eq_none_iff] at hm
    exact absurd (List.map_eq_nil_iff.mp hm) hne
  · rw [hval]
    simp only [hm]
    by_cases hc : (100 : Int) ≤ (markets.map a).sum
    · rw [if_pos hc]
      constructor
      · simp only [true_iff]
        exact Or.inl hc
      · intro opp hopp
        exact absurd hopp (by simp)
    · rw [if_neg hc]
      by_cases hp : 100 - (markets.map a).sum - calculate_total_fees st.fee_rate
          (markets.map (fun m =>
            ({ ticker := m.ticker, side := .yes, action := .buy
               price := a m, quantity := 1 } : ArbitrageLeg))) < st.min_profit_cents
      · rw [if_pos hp]
        constructor
        · simp only [true_iff]
          exact Or.inr hp
        · intro opp hopp
          exact absurd hopp (by simp)
      · rw [if_neg hp]
        constructor
        · simp only [reduceCtorEq, false_iff, not_or, not_lt]
          omega
        · intro opp hopp
          injection hopp with hopp
          subst hopp
          exact ⟨rfl, rfl, rfl, rfl, rfl, rfl, rfl⟩

/-- The three mutually exclusive markets of the spec's three-outcome
scenario. -/
def c6Markets : List Market :=
  [{ ticker := "A", event_ticker := "EVT" },
   { ticker := "B", event_ticker := "EVT" },
   { ticker := "C", event_ticker := "EVT" }]

/-- Best NO bids 60/70/75 with quantities 100/50/200: implied YES asks
40/30/25. -/
def c6Books : List (String × Orderbook) :=
  [("A", { yes_bids := [], no_bids := [{ price := 60, quantity := 100 }] }),
   ("B", { yes_bids := [], no_bids := [{ price := 70, quantity := 50 }] }),
   ("C", { yes_bids := [], no_bids := [{ price := 75, quantity := 200 }] })]

/-- The implied asks of the scenario, per market. -/
def c6ask (m : Market) : Int :=
  if m.ticker = "A" then 40 else if m.ticker = "B" then 30 else 25

/-- The ask quantities of the scenario, per market. -/
def c6qty (m : Market) : Int :=
  if m.ticker = "A" then 100 else if m.ticker = "B" then 50 else 200

/-- The legs the strategy builds in the scenario. -/
def c6Legs : List ArbitrageLeg :=
  [{ ticker := "A", side := .yes, action := .buy, price := 40, quantity := 1 },
   { ticker := "B", side := .yes, action := .buy, price := 30, quantity := 1 },
   { ticker := "C", side := .yes, action := .buy, price := 25, quantity := 1 }]

/-- C6 witness: on the spec's literal scenario (asks 40/30/25, quantities
100/50/200) the default strategy does emit an opportunity, and it carries
`total_cost = 95`, `gross = 5`, `est_fees = 1`, `net = 4`,
`max_quantity = 50`. -/
theorem C6_witness :
    defaultMultiOutcome.detect c6Markets c6Books ≠ none ∧
    ∀ opp, defaultMultiOutcome.detect c6Markets c6Books = some opp →
      opp.total_cost_cents = 95 ∧ opp.gross_profit_cents = 5 ∧
      opp.estimated_fees_cents = 1 ∧ opp.net_profit_cents = 4 ∧
      opp.max_quantity = 50 := by
  have hlegs : c6Markets.map (fun m =>
      ({ ticker := m.ticker, side := .yes, action := .buy
         price := c6ask m, quantity := 1 } : ArbitrageLeg)) = c6Legs := by
    decide
  have hsum : (c6Markets.map c6ask).sum = 95 := by decide
  have f40 : legBuyFee defaultFeeRate
      { ticker := "A", side := .yes, action := .buy, price := 40, quantity := 1 } = 1 := by
    unfold legBuyFee roundUpQ defaultFeeRate
    rw [if_pos (by norm_num)]
    rw [Int.ceil_eq_iff]
    norm_num
  have f30 : legBuyFee defaultFeeRate
      { ticker := "B", side := .yes, action := .buy, price := 30, quantity := 1 } = 1 := by
    unfold legBuyFee roundUpQ defaultFeeRate
    rw [if_pos (by norm_num)]
    rw [Int.ceil_eq_iff]
    norm_num
  have f25 : legBuyFee defaultFeeRate
      { ticker := "C", side := .yes, action := .buy, price := 25, quantity := 1 } = 1 := by
    unfold legBuyFee roundUpQ defaultFeeRate
    rw [if_pos (by norm_num)]
    rw [Int.ceil_eq_iff]
    norm_num
  have hfees : calculate_total_fees defaultFeeRate c6Legs = 1 := by
    rw [calculate_total_fees_eq_foldl]
    unfold buyLegFees
    rw [show c6Legs.filter (fun l => l.action = .buy) = c6Legs from by decide]
    unfold c6Legs
    rw [List.map_cons, List.map_cons, List.map_cons, List.map_nil]
    rw [f40, f30, f25]
    decide
  have hrate : defaultMultiOutcome.fee_rate = defaultFeeRate := rfl
  have h := C6_multioutcome defaultMultiOutcome c6Markets c6Books c6ask c6qty
    (by decide) (by decide) (by decide) (by decide) (by decide) (by decide)
  constructor
  · intro hn
    have hd := h.1.mp hn
    rw [hsum, hlegs, hrate, hfees] at hd
    norm_num [defaultMultiOutcome] at hd
  · intro opp hopp
    obtain ⟨hl, hc, _, hgr, hf, hnet, hm⟩ := h.2 opp hopp
    rw [hsum] at hc hgr
    rw [hl, hlegs, hrate, hfees] at hf
    have hmv : (c6Markets.map c6qty).min? = some 50 := by decide
    rw [hmv] at hm
    injection hm with hm
    refine ⟨hc, by omega, hf, by omega, hm.symm⟩

/-! ### Signature payload (C9) -/

theorem breakAt_cons_pos {p : Char → Bool} {c : Char} (l : List Char)
    (h : p c = true) : breakAt p (c :: l) = ([], c :: l) := by
  rw [breakAt, if_pos h]

theorem breakAt_cons_neg {p : Char → Bool} {c : Char} (l : List Char)
    (h : p c = false) :
    breakAt p (c :: l) = (c :: (breakAt p l).1, (breakAt p l).2) := by
  rw [breakAt, if_neg (by simp [h])]

theorem breakAt_snd_nil_iff (p : Char → Bool) (a : List Char) :
    (breakAt p a).2 = [] ↔ ∀ c ∈ a, p c = false := by
  induction a with
  | nil => simp [breakAt]
  | cons c cs ih =>
    by_cases h : p c
    · rw [breakAt_cons_pos cs h]
      simp [h]
    · rw [breakAt_cons_neg cs (by simpa using h)]
      simp only [List.mem_cons]
      constructor
      · intro hr d hd
        rcases hd with rfl | hd
        · simpa using h
        · exact (ih.mp hr) d hd
      · intro hall
        exact ih.mpr (fun d hd => hall d (Or.inr hd))

theorem breakAt_fst_of_snd_nil (p : Char → Bool) (a : List Char)
    (h : (breakAt p a).2 = []) : (breakAt p a).1 = a := by
  induction a with
  | nil => rfl
  | cons c cs ih =>
    by_cases hc : p c
    · rw [breakAt_cons_pos cs hc] at h
      simp at h
    · rw [breakAt_cons_neg cs (by simpa using hc)] at h ⊢
      rw [ih h]

theorem breakAt_append_of_forall {p : Char → Bool} {a : List Char}
    (b : List Char) (h : ∀ c ∈ a, p c = false) :
    breakAt p (a ++ b) = (a ++ (breakAt p b).1, (breakAt p b).2) := by
  induction a with
  | nil => simp
  | cons c cs ih =>
    rw [List.cons_append,
      breakAt_cons_neg _ (h c (List.mem_cons_self _ _)),
      ih (fun d hd => h d (List.mem_cons_of_mem _ hd))]
    rfl

theorem breakAt_append_of_snd_ne {p : Char → Bool} {a : List Char}
    (b : List Char) (h : (breakAt p a).2 ≠ []) :
    breakAt p (a ++ b) = ((breakAt p a).1, (breakAt p a).2 ++ b) := by
  induction a with
  | nil => simp [breakAt] at h
  | cons c cs ih =>
    by_cases hc : p c
    · rw [List.cons_append, breakAt_cons_pos _ hc, breakAt_cons_pos cs hc]
      rfl
    · rw [breakAt_cons_neg cs (by simpa using hc)] at h
      rw [List.cons_append, breakAt_cons_neg _ (by simpa using hc),
        breakAt_cons_neg cs (by simpa using hc), ih (by simpa using h)]

/-- Stage 1 of the query-invariance argument: appending `?query` to the
URL leaves the scheme split's scheme unchanged and appends `?query` to
its remainder (a `?` inside the candidate scheme invalidates it on both
sides). -/
theorem split_scheme_append (u s : List Char) :
    split_scheme (u ++ '?' :: s) =
      ((split_scheme u).1, (split_scheme u).2 ++ '?' :: s) := by
  unfold split_scheme
  rcases h2 : (breakAt (fun c => c == ':') u).2 with _ | ⟨c, tail⟩
  · have hall := (breakAt_snd_nil_iff _ u).mp h2
    have hcons : breakAt (fun c => c == ':') ('?' :: s) =
        ('?' :: (breakAt (fun c => c == ':') s).1,
         (breakAt (fun c => c == ':') s).2) :=
      breakAt_cons_neg s (by decide)
    rw [breakAt_append_of_forall _ hall, hcons]
    rcases hs2 : (breakAt (fun c => c == ':') s).2 with _ | ⟨d, stail⟩
    · rfl
    · rcases u with _ | ⟨c0, u1⟩
      · dsimp only [List.nil_append]
        rw [if_neg (by simp [show ('?' : Char).isAlpha = false from by decide])]
      · dsimp only [List.cons_append]
        have hallf : ((c0 :: (u1 ++ '?' :: (breakAt (fun c => c == ':') s).1)).all
            scheme_chars) = false := by
          simp [List.all_cons, List.all_append,
            show scheme_chars '?' = false from by decide]
        rw [if_neg (by rw [hallf, Bool.and_false]; exact Bool.false_ne_true)]
  · rw [breakAt_append_of_snd_ne ('?' :: s) (by rw [h2]; simp), h2]
    dsimp only [List.cons_append]
    rcases hpre : (breakAt (fun c => c == ':') u).1 with _ | ⟨c0, pre1⟩
    · rfl
    · dsimp only
      split_ifs with hcond <;> rfl

/-- Stage 2: appending `?query` leaves the netloc split's path remainder
identical up to the appended suffix (a `?` ends the netloc exactly where
the string used to end). -/
theorem split_netloc_append (u s : List Char) :
    split_netloc (u ++ '?' :: s) = split_netloc u ++ '?' :: s := by
  rcases u with _ | ⟨c1, u1⟩
  · rcases s with _ | ⟨c2, s1⟩
    · rfl
    · unfold split_netloc
      dsimp only [List.nil_append]
      rw [if_neg (by simp [show (('?' : Char) == '/') = false from by decide])]
  · rcases u1 with _ | ⟨c2, u2⟩
    · unfold split_netloc
      dsimp only [List.cons_append, List.nil_append]
      rw [if_neg (by simp [show (('?' : Char) == '/') = false from by decide])]
    · unfold split_netloc
      dsimp only [List.cons_append]
      by_cases hc : (c1 == '/' && c2 == '/') = true
      · rw [if_pos hc, if_pos hc]
        rcases hnd : (breakAt netloc_delim u2).2 with _ | ⟨d, dl⟩
        · rw [breakAt_append_of_forall _ ((breakAt_snd_nil_iff _ _).mp hnd),
            breakAt_cons_pos s (by decide)]
          rfl
        · rw [breakAt_append_of_snd_ne _ (by rw [hnd]; simp), hnd]
      · rw [if_neg hc, if_neg hc]
        rfl

/-- Stages 3 and 4: stripping the fragment and then the query of
`url ++ "?" ++ s` gives the same path as for `url` alone. -/
theorem split_query_fragment_append (w s : List Char) :
    split_query (split_fragment (w ++ '?' :: s)) = split_query (split_fragment w) := by
  unfold split_fragment
  rcases hw : (breakAt (fun c => c == '#') w).2 with _ | ⟨c, r⟩
  · have hall := (breakAt_snd_nil_iff _ w).mp hw
    have hfst := breakAt_fst_of_snd_nil _ _ hw
    rw [breakAt_append_of_forall _ hall, breakAt_cons_neg s (by decide)]
    dsimp only
    rw [hfst]
    unfold split_query
    rcases hq : (breakAt (fun c => c == '?') w).2 with _ | ⟨d, dl⟩
    · rw [breakAt_append_of_forall _ ((breakAt_snd_nil_iff _ _).mp hq),
        breakAt_cons_pos _ (by decide)]
      dsimp only
      rw [List.append_nil, breakAt_fst_of_snd_nil _ _ hq]
    · rw [breakAt_append_of_snd_ne _ (by rw [hq]; simp)]
  · rw [breakAt_append_of_snd_ne _ (by rw [hw]; simp)]

/-- Appending `?query` to any URL never changes the parsed path. -/
theorem urlparse_path_append_query (u s : List Char) :
    urlparse_path (u ++ '?' :: s) = urlparse_path u := by
  unfold urlparse_path
  rw [split_scheme_append]
  dsimp only
  rw [split_netloc_append, split_query_fragment_append]

/-- C9: the signature payload is the concatenation of the timestamp, the
upper-cased method and the URL's parsed path component (query string
stripped), and appending an arbitrary query string to the path never
changes the signed payload. -/
theorem C9_signature_payload (timestamp : Int) (method path query : String) :
    create_signature_payload timestamp method (path ++ "?" ++ query) =
      create_signature_payload timestamp method path ∧
    create_signature_payload timestamp method path =
      toString timestamp ++ method.toUpper ++ String.mk (urlparse_path path.toList) := by
  refine ⟨?_, rfl⟩
  unfold create_signature_payload
  have h : (path ++ "?" ++ query).toList = path.toList ++ '?' :: query.toList := by
    simp [String.toList, String.data_append, List.append_assoc]
  rw [h, urlparse_path_append_query]

end Kalshi
